import Mathlib

/-!
Shallow embedding of the Connect-M board engine (`src/connectm.py`) and the
greedy bot (`src/bot.py`).

Conventions of the embedding:
* Python lists become `List`; Python list indexing (which accepts negative
  indices and raises `IndexError` out of range) is modelled by `pyGet`/`pySet`.
* Exceptions are modelled by `Except (PyError × ConnectM) (α × ConnectM)`:
  an operation either returns a value together with the (possibly mutated)
  board, or raises carrying the board as it stood when the exception fired.
* `PieceColor`, `ConnectM`, `_get`, `_set`, `_winner_at`, `can_drop`,
  `drop_wins`, `drop`, `reset`, `done`, `grid` mirror the Python names.
-/

/-- Piece colors, `PieceColor = Enum("PieceColor", ["RED", "YELLOW"])`. -/
inductive PieceColor where
  | RED
  | YELLOW
deriving DecidableEq, Repr

/-- A cell holds a piece color or `None`. -/
abbrev Cell := Option PieceColor

/-- The Python exceptions the engine can raise. -/
inductive PyError where
  | indexError
  | valueError
  | assertionError
deriving DecidableEq, Repr

/-- State of a `ConnectM` object: dimensions, win length `m`, the board
(`_board`, stored top row first exactly like the Python list of lists),
the next-free-row array `_top`, and the cached `_winner`. -/
structure ConnectM where
  nrows : Nat
  ncols : Nat
  m : Nat
  board : List (List Cell)
  top : List Nat
  winner : Option PieceColor
deriving DecidableEq, Repr

/-- Result of a fallible engine operation: ok value plus resulting board, or a
raised exception plus the board at the moment it was raised. -/
abbrev PyResult (α : Type) := Except (PyError × ConnectM) (α × ConnectM)

deriving instance DecidableEq for Except

/-- Python list read `xs[i]`: negative indices count from the end;
`none` models `IndexError`. -/
def pyGet (xs : List α) (i : Int) : Option α :=
  if 0 ≤ i then xs[i.toNat]?
  else if 0 ≤ i + xs.length then xs[(i + xs.length).toNat]?
  else none

/-- Python list write `xs[i] = v`: negative indices count from the end;
`none` models `IndexError`. -/
def pySet (xs : List α) (i : Int) (v : α) : Option (List α) :=
  if 0 ≤ i then (if i.toNat < xs.length then some (xs.set i.toNat v) else none)
  else if 0 ≤ i + xs.length then some (xs.set (i + xs.length).toNat v)
  else none

/-- `ConnectM.__init__` (the successful path, after the `nrows ≥ m` and
`ncols ≥ m` checks): all-empty board, all tops 0, no winner. -/
def ConnectM.init (nrows ncols m : Nat) : ConnectM :=
  { nrows := nrows
    ncols := ncols
    m := m
    board := List.replicate nrows (List.replicate ncols none)
    top := List.replicate ncols 0
    winner := none }

/-- `ConnectM._get`: piece at logical (row, col), row 0 at the bottom;
returns `None` for out-of-board coordinates, otherwise reads
`_board[(nrows - 1) - row][col]`. -/
def ConnectM._get (b : ConnectM) (row col : Int) : Cell :=
  if ¬ (0 ≤ row ∧ row < (b.nrows : Int)) then none
  else if ¬ (0 ≤ col ∧ col < (b.ncols : Int)) then none
  else (b.board.getD (b.nrows - 1 - row.toNat) []).getD col.toNat none

/-- The in-bounds write `_board[(nrows - 1) - row][col] = color` performed by
`ConnectM._set` once its asserts have passed. -/
def ConnectM.setCell (b : ConnectM) (row col : Nat) (v : Cell) : ConnectM :=
  let i := b.nrows - 1 - row
  { b with board := b.board.set i ((b.board.getD i []).set col v) }

/-- `ConnectM._set`: asserts `0 ≤ row < nrows` and `0 ≤ col < ncols`
(`AssertionError` otherwise), then writes the cell. -/
def ConnectM._set (b : ConnectM) (row col : Int) (v : Cell) : PyResult Unit :=
  if 0 ≤ row ∧ row < (b.nrows : Int) ∧ 0 ≤ col ∧ col < (b.ncols : Int) then
    .ok ((), b.setCell row.toNat col.toNat v)
  else .error (.assertionError, b)

/-- The per-direction scan of `ConnectM._winner_at`: starting from
`(ir, ic)` and stepping by `(dr, dc)` at most `k` times, count consecutive
cells whose `_get` equals `origin`, stopping at the first mismatch. -/
def ConnectM.countAdj (b : ConnectM) (origin : Cell) (dr dc : Int) :
    Nat → Int → Int → Nat
  | 0, _, _ => 0
  | k + 1, ir, ic =>
    if b._get (ir + dr) (ic + dc) = origin then
      1 + b.countAdj origin dr dc k (ir + dr) (ic + dc)
    else 0

/-- `adj_dir[(dr, dc)]` of `ConnectM._winner_at`: the count for one of the 8
unit directions, capped at `m - 1` steps, matched against the origin cell. -/
def ConnectM.adjDir (b : ConnectM) (row col dr dc : Int) : Nat :=
  b.countAdj (b._get row col) dr dc (b.m - 1) row col

/-- `ConnectM._winner_at`: the early returns (`adj_dir[d] == m - 1`, taken in
the source's direction order) followed by the four opposite-pair checks. -/
def ConnectM._winner_at (b : ConnectM) (row col : Int) : Bool :=
  if b.adjDir row col 1 (-1) = b.m - 1 then true
  else if b.adjDir row col 1 0 = b.m - 1 then true
  else if b.adjDir row col 1 1 = b.m - 1 then true
  else if b.adjDir row col 0 (-1) = b.m - 1 then true
  else if b.adjDir row col 0 1 = b.m - 1 then true
  else if b.adjDir row col (-1) (-1) = b.m - 1 then true
  else if b.adjDir row col (-1) 0 = b.m - 1 then true
  else if b.adjDir row col (-1) 1 = b.m - 1 then true
  else if b.m ≤ b.adjDir row col 0 (-1) + 1 + b.adjDir row col 0 1 then true
  else if b.m ≤ b.adjDir row col 1 0 + 1 + b.adjDir row col (-1) 0 then true
  else if b.m ≤ b.adjDir row col 1 (-1) + 1 + b.adjDir row col (-1) 1 then true
  else if b.m ≤ b.adjDir row col (-1) (-1) + 1 + b.adjDir row col 1 1 then true
  else false

/-- `ConnectM.can_drop`: `self._top[col] < self._nrows` with Python list
indexing (so an `IndexError` for `col` outside `[-ncols, ncols)`). -/
def ConnectM.can_drop (b : ConnectM) (col : Int) : PyResult Bool :=
  match pyGet b.top col with
  | none => .error (.indexError, b)
  | some t => .ok (decide (t < b.nrows), b)

/-- `ConnectM.drop_wins`: returns `False` if the column is not droppable;
otherwise temporarily places the piece, evaluates `_winner_at`, and undoes
the placement. -/
def ConnectM.drop_wins (b : ConnectM) (col : Int) (color : PieceColor) :
    PyResult Bool :=
  match b.can_drop col with
  | .error e => .error e
  | .ok (canD, b1) =>
    if canD then
      match pyGet b1.top col with
      | none => .error (.indexError, b1)
      | some row =>
        match b1._set (row : Int) col (some color) with
        | .error e => .error e
        | .ok (_, b2) =>
          let w := b2._winner_at (row : Int) col
          match b2._set (row : Int) col none with
          | .error e => .error e
          | .ok (_, b3) => .ok (w, b3)
    else .ok (false, b1)

/-- `ConnectM.drop`: raises `ValueError` if the column is not droppable,
otherwise places the piece at `_top[col]`, increments `_top[col]`, and sets
`_winner` to the dropped color when `_winner_at` reports a win. -/
def ConnectM.drop (b : ConnectM) (col : Int) (color : PieceColor) :
    PyResult Unit :=
  match b.can_drop col with
  | .error e => .error e
  | .ok (canD, b1) =>
    if canD then
      match pyGet b1.top col with
      | none => .error (.indexError, b1)
      | some row =>
        match b1._set (row : Int) col (some color) with
        | .error e => .error e
        | .ok (_, b2) =>
          match pyGet b2.top col with
          | none => .error (.indexError, b2)
          | some t =>
            match pySet b2.top col (t + 1) with
            | none => .error (.indexError, b2)
            | some newTop =>
              let b3 : ConnectM := { b2 with top := newTop }
              if b3._winner_at (row : Int) col then
                .ok ((), { b3 with winner := some color })
              else .ok ((), b3)
    else .error (.valueError, b1)

/-- `ConnectM.reset`: clears every cell, zeroes every entry of `_top`, clears
`_winner`. -/
def ConnectM.reset (b : ConnectM) : ConnectM :=
  { b with
    board := b.board.map (fun row => row.map (fun _ => none))
    top := b.top.map (fun _ => 0)
    winner := none }

/-- `ConnectM.done`: a winner, or every column full. -/
def ConnectM.done (b : ConnectM) : Bool :=
  if b.winner.isSome then true
  else b.top.all (fun t => ! decide (t < b.nrows))

/-- `ConnectM.grid`: a deep copy of `_board` (value equality in the
embedding), top row first. -/
def ConnectM.grid (b : ConnectM) : List (List Cell) :=
  b.board

/-- Run a list of `(column, color)` drops in order, propagating exceptions. -/
def ConnectM.dropSeq (b : ConnectM) : List (Int × PieceColor) → PyResult Unit
  | [] => .ok ((), b)
  | mv :: rest =>
    match b.drop mv.1 mv.2 with
    | .error e => .error e
    | .ok (_, b') => b'.dropSeq rest

/-! ### Basic list lemmas used throughout -/

theorem listGetD_set_self (xs : List α) (i : Nat) (v d : α) (h : i < xs.length) :
    (xs.set i v).getD i d = v := by
  rw [List.getD_eq_getElem?_getD, List.getElem?_set_self']
  simp [h]

theorem listGetD_set_ne (xs : List α) (i j : Nat) (v d : α) (h : i ≠ j) :
    (xs.set i v).getD j d = xs.getD j d := by
  rw [List.getD_eq_getElem?_getD, List.getElem?_set_ne h, ← List.getD_eq_getElem?_getD]

theorem listSet_getD_self (xs : List α) (i : Nat) (d : α) (h : i < xs.length) :
    xs.set i (xs.getD i d) = xs := by
  apply List.ext_getElem?
  intro j
  by_cases hij : i = j
  · subst hij
    rw [List.getElem?_set_self']
    simp [h, List.getD_eq_getElem?_getD, List.getElem?_eq_getElem h]
  · rw [List.getElem?_set_ne hij]

theorem listGetD_mem (xs : List α) (i : Nat) (d : α) (h : i < xs.length) :
    xs.getD i d ∈ xs := by
  rw [List.getD_eq_getElem?_getD, List.getElem?_eq_getElem h]
  exact List.getElem_mem h

theorem listGetD_replicate (n i : Nat) (v d : α) (h : i < n) :
    (List.replicate n v).getD i d = v := by
  simp [List.getD_eq_getElem?_getD, List.getElem?_replicate, h]

theorem listGetD_map_of_lt (xs : List α) (f : α → β) (i : Nat) (d : β) (d' : α)
    (h : i < xs.length) : (xs.map f).getD i d = f (xs.getD i d') := by
  simp [List.getD_eq_getElem?_getD, List.getElem?_map, List.getElem?_eq_getElem h]

theorem listMap_const_replicate (xs : List α) (v : β) :
    xs.map (fun _ => v) = List.replicate xs.length v := by
  induction xs with
  | nil => rfl
  | cons x xs ih => simp [List.replicate_succ, ih]

/-! ### Python indexing lemmas -/

theorem pyGet_ofNat (xs : List α) (i : Nat) : pyGet xs (i : Int) = xs[i]? := by
  simp [pyGet]

theorem pyGet_natLit (xs : List α) (i : Nat) (j : Int) (h : j = (i : Int)) :
    pyGet xs j = xs[i]? := by
  subst h; exact pyGet_ofNat xs i

theorem pyGet_neg (xs : List α) (i : Int) (h1 : -(xs.length : Int) ≤ i) (h2 : i < 0) :
    pyGet xs i = xs[(i + xs.length).toNat]? := by
  have hn : ¬ (0 ≤ i) := by omega
  have hp : 0 ≤ i + xs.length := by omega
  simp [pyGet, hn, hp]

theorem pyGet_too_big (xs : List α) (i : Int) (h : (xs.length : Int) ≤ i) :
    pyGet xs i = none := by
  have h0 : 0 ≤ i := le_trans (Int.natCast_nonneg _) h
  have : xs.length ≤ i.toNat := by omega
  simp [pyGet, h0, List.getElem?_eq_none this]

theorem pyGet_too_low (xs : List α) (i : Int) (h : i < -(xs.length : Int)) :
    pyGet xs i = none := by
  have h0 : ¬ (0 ≤ i) := by omega
  have h1 : ¬ (0 ≤ i + xs.length) := by omega
  simp [pyGet, h0, h1]

theorem pySet_ofNat (xs : List α) (i : Nat) (v : α) (h : i < xs.length) :
    pySet xs (i : Int) v = some (xs.set i v) := by
  simp [pySet, h]

/-! ### The board invariant -/

/-- Well-formedness invariant of a `ConnectM` value: the list shapes match the
dimensions, every column height is at most `nrows`, and a cell of column `c`
is occupied exactly when its row lies below `_top[c]` (gravity: the occupied
cells of a column are `0 .. _top[c] - 1`, contiguously). -/
def ConnectM.Inv (b : ConnectM) : Prop :=
  b.board.length = b.nrows ∧
  (∀ l ∈ b.board, l.length = b.ncols) ∧
  b.top.length = b.ncols ∧
  (∀ c < b.ncols, b.top.getD c 0 ≤ b.nrows) ∧
  (∀ c < b.ncols, ∀ r < b.nrows,
    ((b._get (r : Int) (c : Int)).isSome ↔ r < b.top.getD c 0))

instance (b : ConnectM) : Decidable b.Inv := by
  unfold ConnectM.Inv
  infer_instance

/-! ### `_get` and `setCell` characterizations -/

theorem get_in_range (b : ConnectM) (r c : Nat) (hr : r < b.nrows)
    (hc : c < b.ncols) :
    b._get (r : Int) (c : Int) = (b.board.getD (b.nrows - 1 - r) []).getD c none := by
  have h1 : (0 : Int) ≤ (r : Int) ∧ (r : Int) < (b.nrows : Int) := by
    constructor <;> omega
  have h2 : (0 : Int) ≤ (c : Int) ∧ (c : Int) < (b.ncols : Int) := by
    constructor <;> omega
  simp [ConnectM._get, h1, h2]

theorem get_off_board (b : ConnectM) (row col : Int)
    (h : row < 0 ∨ (b.nrows : Int) ≤ row ∨ col < 0 ∨ (b.ncols : Int) ≤ col) :
    b._get row col = none := by
  by_cases h1 : (0 ≤ row ∧ row < (b.nrows : Int))
  · by_cases h2 : (0 ≤ col ∧ col < (b.ncols : Int))
    · exfalso
      rcases h with h | h | h | h <;> omega
    · simp [ConnectM._get, h1.1, h1.2, h2]
  · simp [ConnectM._get, h1]

theorem setCell_nrows (b : ConnectM) (row col : Nat) (v : Cell) :
    (b.setCell row col v).nrows = b.nrows := rfl

theorem setCell_ncols (b : ConnectM) (row col : Nat) (v : Cell) :
    (b.setCell row col v).ncols = b.ncols := rfl

theorem setCell_m (b : ConnectM) (row col : Nat) (v : Cell) :
    (b.setCell row col v).m = b.m := rfl

theorem setCell_top (b : ConnectM) (row col : Nat) (v : Cell) :
    (b.setCell row col v).top = b.top := rfl

theorem setCell_winner (b : ConnectM) (row col : Nat) (v : Cell) :
    (b.setCell row col v).winner = b.winner := rfl

theorem setCell_board_length (b : ConnectM) (row col : Nat) (v : Cell) :
    (b.setCell row col v).board.length = b.board.length := by
  simp [ConnectM.setCell]

theorem setCell_get (b : ConnectM) (row col : Nat) (v : Cell)
    (hb : b.board.length = b.nrows) (hsh : ∀ l ∈ b.board, l.length = b.ncols)
    (hrow : row < b.nrows) (hcol : col < b.ncols)
    (r c : Nat) (hr : r < b.nrows) (hc : c < b.ncols) :
    (b.setCell row col v)._get (r : Int) (c : Int) =
      if r = row ∧ c = col then v else b._get (r : Int) (c : Int) := by
  have hi : b.nrows - 1 - row < b.board.length := by omega
  have hmem := listGetD_mem b.board (b.nrows - 1 - row) [] hi
  have hlen := hsh _ hmem
  have hL := get_in_range (b.setCell row col v) r c hr hc
  rw [hL, get_in_range b r c hr hc]
  have hNr : (b.setCell row col v).nrows = b.nrows := rfl
  have hBoards : (b.setCell row col v).board
      = b.board.set (b.nrows - 1 - row)
          ((b.board.getD (b.nrows - 1 - row) []).set col v) := rfl
  rw [hNr, hBoards]
  by_cases hrr : r = row
  · subst hrr
    rw [listGetD_set_self _ _ _ _ hi]
    by_cases hcc : c = col
    · subst hcc
      rw [listGetD_set_self _ _ _ _ (by omega)]
      simp
    · rw [listGetD_set_ne _ _ _ _ _ (fun h => hcc h.symm)]
      simp [hcc]
  · have hne : b.nrows - 1 - row ≠ b.nrows - 1 - r := by omega
    rw [listGetD_set_ne _ _ _ _ _ hne]
    rw [if_neg (fun h => hrr h.1)]

theorem ConnectM.ext' (b b' : ConnectM) (h1 : b.nrows = b'.nrows)
    (h2 : b.ncols = b'.ncols) (h3 : b.m = b'.m) (h4 : b.board = b'.board)
    (h5 : b.top = b'.top) (h6 : b.winner = b'.winner) : b = b' := by
  cases b
  cases b'
  congr 1

theorem setCell_board (b : ConnectM) (row col : Nat) (v : Cell) :
    (b.setCell row col v).board
      = b.board.set (b.nrows - 1 - row)
          ((b.board.getD (b.nrows - 1 - row) []).set col v) := rfl

theorem setCell_restore (b : ConnectM) (row col : Nat) (v : Cell)
    (hb : b.board.length = b.nrows) (hsh : ∀ l ∈ b.board, l.length = b.ncols)
    (hrow : row < b.nrows) (hcol : col < b.ncols)
    (hempty : b._get (row : Int) (col : Int) = none) :
    (b.setCell row col v).setCell row col none = b := by
  have hi : b.nrows - 1 - row < b.board.length := by omega
  have hlen : (b.board.getD (b.nrows - 1 - row) []).length = b.ncols :=
    hsh _ (listGetD_mem _ _ _ hi)
  have hval : (b.board.getD (b.nrows - 1 - row) []).getD col none = none := by
    rw [← get_in_range b row col hrow hcol]
    exact hempty
  have h2 : (b.board.getD (b.nrows - 1 - row) []).set col none
      = b.board.getD (b.nrows - 1 - row) [] := by
    conv_lhs => rw [← hval]
    exact listSet_getD_self _ _ _ (by omega)
  refine ConnectM.ext' _ _ rfl rfl rfl ?_ rfl rfl
  simp only [setCell_board, setCell_nrows]
  rw [listGetD_set_self _ _ _ _ hi, List.set_set, List.set_set, h2,
    listSet_getD_self _ _ _ hi]

/-! ### `can_drop` characterizations -/

theorem can_drop_nat (b : ConnectM) (col : Nat) (h : col < b.top.length) :
    b.can_drop (col : Int) = .ok (decide (b.top.getD col 0 < b.nrows), b) := by
  unfold ConnectM.can_drop
  rw [pyGet_ofNat, List.getElem?_eq_getElem h]
  simp [List.getD_eq_getElem?_getD, List.getElem?_eq_getElem h]

theorem can_drop_neg (b : ConnectM) (col : Int)
    (h1 : -(b.top.length : Int) ≤ col) (h2 : col < 0) :
    b.can_drop col
      = .ok (decide (b.top.getD (col + b.top.length).toNat 0 < b.nrows), b) := by
  have hidx : (col + b.top.length).toNat < b.top.length := by omega
  unfold ConnectM.can_drop
  rw [pyGet_neg _ _ h1 h2, List.getElem?_eq_getElem hidx]
  simp [List.getD_eq_getElem?_getD, List.getElem?_eq_getElem hidx]

theorem can_drop_err_big (b : ConnectM) (col : Int)
    (h : (b.top.length : Int) ≤ col) :
    b.can_drop col = .error (.indexError, b) := by
  unfold ConnectM.can_drop
  rw [pyGet_too_big _ _ h]

theorem can_drop_err_low (b : ConnectM) (col : Int)
    (h : col < -(b.top.length : Int)) :
    b.can_drop col = .error (.indexError, b) := by
  unfold ConnectM.can_drop
  rw [pyGet_too_low _ _ h]

/-! ### `drop_wins` characterizations -/

theorem drop_wins_full (b : ConnectM) (col : Nat) (color : PieceColor)
    (h : col < b.top.length) (hfull : b.nrows ≤ b.top.getD col 0) :
    b.drop_wins (col : Int) color = .ok (false, b) := by
  have hd : decide (b.top.getD col 0 < b.nrows) = false :=
    decide_eq_false (by omega)
  unfold ConnectM.drop_wins
  rw [can_drop_nat b col h]
  simp only [hd, Bool.false_eq_true, if_false]

theorem drop_wins_ok (b : ConnectM) (col : Nat) (color : PieceColor)
    (ht : b.top.length = b.ncols) (hcol : col < b.ncols)
    (hcd : b.top.getD col 0 < b.nrows) :
    b.drop_wins (col : Int) color =
      .ok ((b.setCell (b.top.getD col 0) col (some color))._winner_at
             ((b.top.getD col 0 : Nat) : Int) (col : Int),
           (b.setCell (b.top.getD col 0) col (some color)).setCell
             (b.top.getD col 0) col none) := by
  have hlt : col < b.top.length := by omega
  have hd : decide (b.top.getD col 0 < b.nrows) = true := decide_eq_true hcd
  have hrowv : b.top[col] = b.top.getD col 0 := by
    simp [List.getD_eq_getElem?_getD, List.getElem?_eq_getElem hlt]
  have c1 : (0 : Int) ≤ ((b.top.getD col 0 : Nat) : Int)
      ∧ ((b.top.getD col 0 : Nat) : Int) < (b.nrows : Int)
      ∧ (0 : Int) ≤ (col : Int) ∧ (col : Int) < (b.ncols : Int) := by
    refine ⟨?_, ?_, ?_, ?_⟩ <;> omega
  unfold ConnectM.drop_wins
  rw [can_drop_nat b col hlt]
  simp only [hd, if_true]
  rw [pyGet_ofNat, List.getElem?_eq_getElem hlt, hrowv]
  unfold ConnectM._set
  simp only [setCell_nrows, setCell_ncols, c1.1, c1.2.1, c1.2.2.1, c1.2.2.2,
    and_self, and_true, true_and, if_true, Int.toNat_natCast]
theorem drop_wins_ok_inv (b : ConnectM) (col : Nat) (color : PieceColor)
    (hInv : b.Inv) (hcol : col < b.ncols) (hcd : b.top.getD col 0 < b.nrows) :
    b.drop_wins (col : Int) color =
      .ok ((b.setCell (b.top.getD col 0) col (some color))._winner_at
             ((b.top.getD col 0 : Nat) : Int) (col : Int), b) := by
  obtain ⟨hb, hsh, ht, htop, hcell⟩ := hInv
  rw [drop_wins_ok b col color ht hcol hcd]
  have hempty : b._get ((b.top.getD col 0 : Nat) : Int) (col : Int) = none := by
    have := hcell col hcol (b.top.getD col 0) hcd
    rcases ho : b._get ((b.top.getD col 0 : Nat) : Int) (col : Int) with _ | x
    · rfl
    · rw [ho] at this
      simp at this
  rw [setCell_restore b _ col (some color) hb hsh hcd hcol hempty]

/-! ### `drop` characterizations -/

/-- The board produced by a successful in-range `drop`: piece placed at row
`_top[col]`, that column height incremented, winner updated if the new piece
wins. -/
def ConnectM.dropped (b : ConnectM) (col : Nat) (color : PieceColor) : ConnectM :=
  let row := b.top.getD col 0
  let b2 := b.setCell row col (some color)
  let b3 : ConnectM := { b2 with top := b2.top.set col (row + 1) }
  if b3._winner_at (row : Int) (col : Int) then { b3 with winner := some color }
  else b3

theorem drop_full (b : ConnectM) (col : Nat) (color : PieceColor)
    (h : col < b.top.length) (hfull : b.nrows ≤ b.top.getD col 0) :
    b.drop (col : Int) color = .error (.valueError, b) := by
  have hd : decide (b.top.getD col 0 < b.nrows) = false :=
    decide_eq_false (by omega)
  unfold ConnectM.drop
  rw [can_drop_nat b col h]
  simp only [hd, Bool.false_eq_true, if_false]

theorem drop_ok (b : ConnectM) (col : Nat) (color : PieceColor)
    (ht : b.top.length = b.ncols) (hcol : col < b.ncols)
    (hcd : b.top.getD col 0 < b.nrows) :
    b.drop (col : Int) color = .ok ((), b.dropped col color) := by
  have hlt : col < b.top.length := by omega
  have hd : decide (b.top.getD col 0 < b.nrows) = true := decide_eq_true hcd
  have hrowv : b.top[col] = b.top.getD col 0 := by
    simp [List.getD_eq_getElem?_getD, List.getElem?_eq_getElem hlt]
  have c1 : (0 : Int) ≤ ((b.top.getD col 0 : Nat) : Int)
      ∧ ((b.top.getD col 0 : Nat) : Int) < (b.nrows : Int)
      ∧ (0 : Int) ≤ (col : Int) ∧ (col : Int) < (b.ncols : Int) := by
    refine ⟨?_, ?_, ?_, ?_⟩ <;> omega
  have hlt2 : col < (b.setCell (b.top.getD col 0) col (some color)).top.length := by
    rw [setCell_top]
    omega
  unfold ConnectM.drop
  rw [can_drop_nat b col hlt]
  simp only [hd, if_true]
  rw [pyGet_ofNat, List.getElem?_eq_getElem hlt, hrowv]
  unfold ConnectM._set
  simp only [setCell_nrows, setCell_ncols, c1.1, c1.2.1, c1.2.2.1, c1.2.2.2,
    and_self, and_true, true_and, if_true, Int.toNat_natCast]
  rw [pyGet_ofNat, List.getElem?_eq_getElem hlt2]
  have hrowv2 : (b.setCell (b.top.getD col 0) col (some color)).top[col]
      = b.top.getD col 0 := by
    simp only [setCell_top]
    exact hrowv
  rw [hrowv2]
  dsimp only
  rw [pySet_ofNat _ _ _ (by rw [setCell_top]; omega)]
  dsimp only
  unfold ConnectM.dropped
  simp only [setCell_top, setCell_nrows, setCell_ncols, setCell_m,
    setCell_winner, setCell_board]
  split
  · rename_i hw
    simp [hw]
  · rename_i hw
    simp [hw]

/-! ### Out-of-range and negative-index behavior -/

theorem drop_wins_err_big (b : ConnectM) (col : Int) (color : PieceColor)
    (h : (b.top.length : Int) ≤ col) :
    b.drop_wins col color = .error (.indexError, b) := by
  unfold ConnectM.drop_wins
  rw [can_drop_err_big b col h]

theorem drop_wins_err_low (b : ConnectM) (col : Int) (color : PieceColor)
    (h : col < -(b.top.length : Int)) :
    b.drop_wins col color = .error (.indexError, b) := by
  unfold ConnectM.drop_wins
  rw [can_drop_err_low b col h]

theorem drop_err_big (b : ConnectM) (col : Int) (color : PieceColor)
    (h : (b.top.length : Int) ≤ col) :
    b.drop col color = .error (.indexError, b) := by
  unfold ConnectM.drop
  rw [can_drop_err_big b col h]

theorem drop_err_low (b : ConnectM) (col : Int) (color : PieceColor)
    (h : col < -(b.top.length : Int)) :
    b.drop col color = .error (.indexError, b) := by
  unfold ConnectM.drop
  rw [can_drop_err_low b col h]

theorem drop_wins_neg (b : ConnectM) (col : Int) (color : PieceColor)
    (h1 : -(b.top.length : Int) ≤ col) (h2 : col < 0) :
    b.drop_wins col color =
      if b.top.getD (col + b.top.length).toNat 0 < b.nrows then
        .error (.assertionError, b)
      else .ok (false, b) := by
  unfold ConnectM.drop_wins
  rw [can_drop_neg b col h1 h2]
  by_cases hcd : b.top.getD (col + b.top.length).toNat 0 < b.nrows
  · rw [if_pos hcd]
    simp only [decide_eq_true hcd, if_true]
    rw [pyGet_neg _ _ h1 h2, List.getElem?_eq_getElem (by omega)]
    dsimp only
    unfold ConnectM._set
    rw [if_neg (fun hcon => absurd hcon.2.2.1 (by omega))]
  · rw [if_neg hcd]
    simp only [decide_eq_false hcd, Bool.false_eq_true, if_false]

theorem drop_neg (b : ConnectM) (col : Int) (color : PieceColor)
    (h1 : -(b.top.length : Int) ≤ col) (h2 : col < 0) :
    b.drop col color =
      if b.top.getD (col + b.top.length).toNat 0 < b.nrows then
        .error (.assertionError, b)
      else .error (.valueError, b) := by
  unfold ConnectM.drop
  rw [can_drop_neg b col h1 h2]
  by_cases hcd : b.top.getD (col + b.top.length).toNat 0 < b.nrows
  · rw [if_pos hcd]
    simp only [decide_eq_true hcd, if_true]
    rw [pyGet_neg _ _ h1 h2, List.getElem?_eq_getElem (by omega)]
    dsimp only
    unfold ConnectM._set
    rw [if_neg (fun hcon => absurd hcon.2.2.1 (by omega))]
  · rw [if_neg hcd]
    simp only [decide_eq_false hcd, Bool.false_eq_true, if_false]

/-! ### Invariant preservation -/

theorem listMap_eq_replicate (xs : List α) (f : α → β) (v : β)
    (h : ∀ x ∈ xs, f x = v) : xs.map f = List.replicate xs.length v := by
  induction xs with
  | nil => rfl
  | cons x xs ih =>
    simp only [List.map_cons, List.length_cons, List.replicate_succ]
    rw [h x (List.mem_cons_self x xs), ih (fun y hy => h y (List.mem_cons_of_mem x hy))]

theorem Inv_init (r c m : Nat) : (ConnectM.init r c m).Inv := by
  unfold ConnectM.Inv ConnectM.init
  dsimp only
  refine ⟨by simp, ?_, by simp, ?_, ?_⟩
  · intro l hl
    rw [List.eq_of_mem_replicate hl]
    simp
  · intro cc hcc
    rw [listGetD_replicate _ _ _ _ hcc]
    exact Nat.zero_le _
  · intro cc hcc rr hrr
    have hg := get_in_range
      (ConnectM.mk r c m (List.replicate r (List.replicate c none))
        (List.replicate c 0) none) rr cc hrr hcc
    dsimp only at hg
    rw [hg, listGetD_replicate _ _ _ _ (by omega), listGetD_replicate _ _ _ _ hcc,
      listGetD_replicate _ _ _ _ hcc]
    simp

theorem reset_eq_init (b : ConnectM) (hInv : b.Inv) :
    b.reset = ConnectM.init b.nrows b.ncols b.m := by
  obtain ⟨hb, hsh, ht, _, _⟩ := hInv
  refine ConnectM.ext' _ _ rfl rfl rfl ?_ ?_ rfl
  · show b.board.map (fun row => row.map (fun _ => (none : Cell)))
      = List.replicate b.nrows (List.replicate b.ncols (none : Cell))
    rw [← hb]
    apply listMap_eq_replicate
    intro l hl
    rw [listMap_const_replicate, hsh l hl]
  · show b.top.map (fun _ => 0) = List.replicate b.ncols 0
    rw [← ht]
    exact listMap_const_replicate _ _

theorem Inv_reset (b : ConnectM) (hInv : b.Inv) : b.reset.Inv := by
  rw [reset_eq_init b hInv]
  exact Inv_init _ _ _

theorem Inv_winner_any (nr nc m : Nat) (bd : List (List Cell)) (tp : List Nat)
    (w w' : Option PieceColor) (h : (ConnectM.mk nr nc m bd tp w).Inv) :
    (ConnectM.mk nr nc m bd tp w').Inv := h

theorem Inv_dropped (b : ConnectM) (col : Nat) (color : PieceColor)
    (hInv : b.Inv) (hcol : col < b.ncols) (hcd : b.top.getD col 0 < b.nrows) :
    (b.dropped col color).Inv := by
  obtain ⟨hb, hsh, ht, htop, hcell⟩ := hInv
  have hrowlt : b.top.getD col 0 < b.nrows := hcd
  have hkey : (ConnectM.mk b.nrows b.ncols b.m
      (b.setCell (b.top.getD col 0) col (some color)).board
      (b.top.set col (b.top.getD col 0 + 1)) b.winner).Inv := by
    refine ⟨?_, ?_, ?_, ?_, ?_⟩
    · show (b.setCell (b.top.getD col 0) col (some color)).board.length = b.nrows
      rw [setCell_board_length, hb]
    · intro l hl
      rw [setCell_board] at hl
      rcases List.mem_or_eq_of_mem_set hl with hl' | hl'
      · exact hsh l hl'
      · subst hl'
        rw [List.length_set]
        exact hsh _ (listGetD_mem _ _ _ (by omega))
    · show (b.top.set col (b.top.getD col 0 + 1)).length = b.ncols
      rw [List.length_set, ht]
    · intro cc hcc
      show (b.top.set col (b.top.getD col 0 + 1)).getD cc 0 ≤ b.nrows
      by_cases hceq : cc = col
      · subst hceq
        rw [listGetD_set_self _ _ _ _ (by omega)]
        omega
      · rw [listGetD_set_ne _ _ _ _ _ (fun h => hceq h.symm)]
        exact htop cc hcc
    · intro cc hcc rr hrr
      have hget : (ConnectM.mk b.nrows b.ncols b.m
          (b.setCell (b.top.getD col 0) col (some color)).board
          (b.top.set col (b.top.getD col 0 + 1)) b.winner)._get (rr : Int) (cc : Int)
          = (b.setCell (b.top.getD col 0) col (some color))._get (rr : Int) (cc : Int) := rfl
      rw [hget, setCell_get b _ col (some color) hb hsh hcd hcol rr cc hrr hcc]
      show _ ↔ rr < (b.top.set col (b.top.getD col 0 + 1)).getD cc 0
      by_cases hceq : cc = col
      · subst hceq
        rw [listGetD_set_self _ _ _ _ (by omega)]
        by_cases hreq : rr = b.top.getD cc 0
        · subst hreq
          simp
        · rw [if_neg (fun h => hreq h.1)]
          rw [hcell cc hcc rr hrr]
          omega
      · rw [if_neg (fun h => hceq h.2), listGetD_set_ne _ _ _ _ _ (fun h => hceq h.symm)]
        exact hcell cc hcc rr hrr
  unfold ConnectM.dropped
  dsimp only
  split
  · exact Inv_winner_any _ _ _ _ _ _ _ hkey
  · exact Inv_winner_any _ _ _ _ _ _ _ hkey

/-! ### Boolean views of the read-only queries -/

/-- The boolean a caller sees from `can_drop` on a non-raising call. -/
def ConnectM.droppableB (b : ConnectM) (col : Nat) : Bool :=
  match b.can_drop (col : Int) with
  | .ok (t, _) => t
  | .error _ => false

/-- The boolean a caller sees from `drop_wins` on a non-raising call. -/
def ConnectM.winsB (b : ConnectM) (col : Nat) (color : PieceColor) : Bool :=
  match b.drop_wins (col : Int) color with
  | .ok (w, _) => w
  | .error _ => false

theorem droppableB_eq (b : ConnectM) (col : Nat) (h : col < b.top.length) :
    b.droppableB col = decide (b.top.getD col 0 < b.nrows) := by
  unfold ConnectM.droppableB
  rw [can_drop_nat b col h]

theorem winsB_full (b : ConnectM) (col : Nat) (color : PieceColor)
    (h : col < b.top.length) (hfull : b.nrows ≤ b.top.getD col 0) :
    b.winsB col color = false := by
  unfold ConnectM.winsB
  rw [drop_wins_full b col color h hfull]

theorem winsB_char (b : ConnectM) (col : Nat) (color : PieceColor)
    (hInv : b.Inv) (hcol : col < b.ncols) (hcd : b.top.getD col 0 < b.nrows) :
    b.winsB col color
      = (b.setCell (b.top.getD col 0) col (some color))._winner_at
          ((b.top.getD col 0 : Nat) : Int) (col : Int) := by
  unfold ConnectM.winsB
  rw [drop_wins_ok_inv b col color hInv hcol hcd]

theorem dw_ok_inv (b : ConnectM) (col : Nat) (color : PieceColor)
    (hInv : b.Inv) (hcol : col < b.ncols) :
    b.drop_wins (col : Int) color = .ok (b.winsB col color, b) := by
  have ht : b.top.length = b.ncols := hInv.2.2.1
  by_cases hcd : b.top.getD col 0 < b.nrows
  · rw [drop_wins_ok_inv b col color hInv hcol hcd,
      winsB_char b col color hInv hcol hcd]
  · rw [drop_wins_full b col color (by omega) (by omega),
      winsB_full b col color (by omega) (by omega)]

theorem get_congr (b b' : ConnectM) (h1 : b'.nrows = b.nrows)
    (h2 : b'.ncols = b.ncols) (h4 : b'.board = b.board) (row col : Int) :
    b'._get row col = b._get row col := by
  unfold ConnectM._get
  rw [h1, h2, h4]

theorem countAdj_congr (b b' : ConnectM) (h1 : b'.nrows = b.nrows)
    (h2 : b'.ncols = b.ncols) (h4 : b'.board = b.board)
    (origin : Cell) (dr dc : Int) :
    ∀ (k : Nat) (ir ic : Int),
      b'.countAdj origin dr dc k ir ic = b.countAdj origin dr dc k ir ic := by
  intro k
  induction k with
  | zero => intro ir ic; rfl
  | succ k ih =>
    intro ir ic
    unfold ConnectM.countAdj
    rw [get_congr b b' h1 h2 h4, ih]

theorem winner_at_congr (b b' : ConnectM) (h1 : b'.nrows = b.nrows)
    (h2 : b'.ncols = b.ncols) (h3 : b'.m = b.m) (h4 : b'.board = b.board)
    (row col : Int) : b'._winner_at row col = b._winner_at row col := by
  have hadj : ∀ dr dc : Int, b'.adjDir row col dr dc = b.adjDir row col dr dc := by
    intro dr dc
    unfold ConnectM.adjDir
    rw [get_congr b b' h1 h2 h4, countAdj_congr b b' h1 h2 h4, h3]
  unfold ConnectM._winner_at
  rw [h3]
  simp only [hadj]

theorem dropped_winner (b : ConnectM) (col : Nat) (color : PieceColor) :
    (b.dropped col color).winner =
      if (b.setCell (b.top.getD col 0) col (some color))._winner_at
          ((b.top.getD col 0 : Nat) : Int) (col : Int) = true
      then some color else b.winner := by
  unfold ConnectM.dropped
  dsimp only
  have hcong := winner_at_congr (b.setCell (b.top.getD col 0) col (some color))
    ({ b.setCell (b.top.getD col 0) col (some color) with
        top := (b.setCell (b.top.getD col 0) col (some color)).top.set col
          (b.top.getD col 0 + 1) } : ConnectM)
    rfl rfl rfl rfl ((b.top.getD col 0 : Nat) : Int) (col : Int)
  split
  · rename_i hw
    rw [if_pos (hcong.symm.trans hw)]
  · rename_i hw
    rw [if_neg (fun h => hw (hcong.trans h))]
    rfl

theorem dropped_winner_winsB (b : ConnectM) (col : Nat) (color : PieceColor)
    (hInv : b.Inv) (hcol : col < b.ncols) (hcd : b.top.getD col 0 < b.nrows) :
    (b.dropped col color).winner =
      if b.winsB col color = true then some color else b.winner := by
  rw [dropped_winner, winsB_char b col color hInv hcol hcd]

/-! ### The spec's description of the win scan (for the refinement claim) -/

/-- Spec-side count: starting one step from the origin and moving outward in
direction `(dr, dc)`, count consecutive cells holding exactly `color`,
stopping at the first non-matching or off-board cell (off-board reads are
`none`, never an error), capped at `k` steps. Written from the spec's words,
to be compared with the source's `countAdj`. -/
def ConnectM.specCount (b : ConnectM) (color : PieceColor) (dr dc : Int) :
    Nat → Int → Int → Nat
  | 0, _, _ => 0
  | k + 1, ir, ic =>
    if b._get (ir + dr) (ic + dc) = some color then
      1 + b.specCount color dr dc k (ir + dr) (ic + dc)
    else 0

/-- Spec-side per-direction count, capped at `m - 1` steps. -/
def ConnectM.specCountDir (b : ConnectM) (row col : Int) (color : PieceColor)
    (dr dc : Int) : Nat :=
  b.specCount color dr dc (b.m - 1) row col

/-- Spec-side win predicate: some opposite-direction pair satisfies
`count(dir) + 1 + count(opposite dir) ≥ m`. Written from the spec's words. -/
def ConnectM.specWinAt (b : ConnectM) (row col : Int) (color : PieceColor) :
    Bool :=
  decide (b.m ≤ b.specCountDir row col color 0 (-1) + 1
      + b.specCountDir row col color 0 1) ||
  decide (b.m ≤ b.specCountDir row col color 1 0 + 1
      + b.specCountDir row col color (-1) 0) ||
  decide (b.m ≤ b.specCountDir row col color 1 (-1) + 1
      + b.specCountDir row col color (-1) 1) ||
  decide (b.m ≤ b.specCountDir row col color (-1) (-1) + 1
      + b.specCountDir row col color 1 1)

theorem countAdj_eq_specCount (b : ConnectM) (color : PieceColor)
    (dr dc : Int) : ∀ (k : Nat) (ir ic : Int),
    b.countAdj (some color) dr dc k ir ic = b.specCount color dr dc k ir ic := by
  intro k
  induction k with
  | zero => intro ir ic; rfl
  | succ k ih =>
    intro ir ic
    unfold ConnectM.countAdj ConnectM.specCount
    rw [ih]

theorem boolIf_true_or (p : Prop) [Decidable p] (x : Bool) :
    (if p then true else x) = (decide p || x) := by
  by_cases h : p <;> simp [h]

theorem winner_at_iff_specWin (b : ConnectM) (row col : Int)
    (color : PieceColor) (h : b._get row col = some color) :
    b._winner_at row col = b.specWinAt row col color := by
  have hadj : ∀ dr dc : Int,
      b.adjDir row col dr dc = b.specCountDir row col color dr dc := by
    intro dr dc
    unfold ConnectM.adjDir ConnectM.specCountDir
    rw [h, countAdj_eq_specCount]
  unfold ConnectM._winner_at ConnectM.specWinAt
  simp only [hadj, boolIf_true_or, Bool.or_false]
  apply Bool.coe_iff_coe.mp
  simp only [Bool.or_eq_true, decide_eq_true_eq]
  omega

/-! ### The greedy bot (`SmartBot.suggest_move` of `src/bot.py`) -/

/-- Result of `SmartBot.suggest_move`: either a deterministically chosen
column, or a `random.choice` over a list of candidate columns (the random
draw itself is left abstract). -/
inductive BotChoice where
  | col (c : Nat)
  | random (cands : List Nat)
deriving DecidableEq, Repr

/-- The column loop of `SmartBot.suggest_move`: for each remaining column,
skip it if not droppable, return it if `drop_wins(col, own)`, else append it
to `opponent_win_moves` if `drop_wins(col, opp)`, else to
`nonwinning_moves`; after the loop return the first blocking column if any,
else `random.choice(nonwinning_moves)` (an `IndexError` on an empty list). -/
def smLoop (own opp : PieceColor) :
    List Nat → List Nat → List Nat → ConnectM →
    Except (PyError × ConnectM) (BotChoice × ConnectM)
  | [], owm, nwm, b =>
    if owm.isEmpty then
      if nwm.isEmpty then .error (.indexError, b)
      else .ok (.random nwm, b)
    else .ok (.col (owm.headD 0), b)
  | col :: rest, owm, nwm, b =>
    match b.can_drop (col : Int) with
    | .error e => .error e
    | .ok (canD, b1) =>
      if canD then
        match b1.drop_wins (col : Int) own with
        | .error e => .error e
        | .ok (w1, b2) =>
          if w1 then .ok (.col col, b2)
          else
            match b2.drop_wins (col : Int) opp with
            | .error e => .error e
            | .ok (w2, b3) =>
              if w2 then smLoop own opp rest (owm ++ [col]) nwm b3
              else smLoop own opp rest owm (nwm ++ [col]) b3
      else smLoop own opp rest owm nwm b1

/-- `SmartBot.suggest_move`: iterate over the columns `0 .. num_cols - 1`. -/
def ConnectM.suggest_move (b : ConnectM) (own opp : PieceColor) :
    Except (PyError × ConnectM) (BotChoice × ConnectM) :=
  smLoop own opp (List.range b.ncols) [] [] b

/-- The behavior the spec ascribes to the greedy policy: the first droppable
winning column in ascending order, else the first droppable blocking column,
else a random choice among the droppable columns that neither win nor
block. Written from the spec's words, to be compared with `suggest_move`. -/
def ConnectM.suggestSpec (b : ConnectM) (own opp : PieceColor) :
    Except (PyError × ConnectM) (BotChoice × ConnectM) :=
  match (List.range b.ncols).filter
      (fun c => b.droppableB c && b.winsB c own) with
  | w :: _ => .ok (.col w, b)
  | [] =>
    match (List.range b.ncols).filter
        (fun c => b.droppableB c && !b.winsB c own && b.winsB c opp) with
    | bk :: _ => .ok (.col bk, b)
    | [] =>
      match (List.range b.ncols).filter
          (fun c => b.droppableB c && !b.winsB c own && !b.winsB c opp) with
      | [] => .error (.indexError, b)
      | l => .ok (.random l, b)

theorem can_drop_view (b : ConnectM) (col : Nat) (h : col < b.top.length) :
    b.can_drop (col : Int) = .ok (b.droppableB col, b) := by
  rw [can_drop_nat b col h, droppableB_eq b col h]

theorem smLoop_spec (b : ConnectM) (own opp : PieceColor) (hInv : b.Inv) :
    ∀ (l : List Nat) (owm nwm : List Nat), (∀ c ∈ l, c < b.ncols) →
    smLoop own opp l owm nwm b =
      match l.filter (fun c => b.droppableB c && b.winsB c own) with
      | w :: _ => .ok (.col w, b)
      | [] =>
        match owm ++ l.filter
            (fun c => b.droppableB c && !b.winsB c own && b.winsB c opp) with
        | bk :: _ => .ok (.col bk, b)
        | [] =>
          match nwm ++ l.filter
              (fun c => b.droppableB c && !b.winsB c own && !b.winsB c opp) with
          | [] => .error (.indexError, b)
          | l' => .ok (.random l', b)
  | [] => by
    intro owm nwm hmem
    simp only [List.filter_nil, List.append_nil]
    unfold smLoop
    cases owm with
    | nil =>
      cases nwm with
      | nil => rfl
      | cons x xs => rfl
    | cons y ys => rfl
  | col :: rest => by
    intro owm nwm hmem
    have hcol : col < b.ncols := hmem col (List.mem_cons_self col rest)
    have hrest : ∀ c ∈ rest, c < b.ncols :=
      fun c hc => hmem c (List.mem_cons_of_mem col hc)
    have ht : b.top.length = b.ncols := hInv.2.2.1
    unfold smLoop
    rw [can_drop_view b col (by omega)]
    dsimp only
    cases hd : b.droppableB col with
    | false =>
      simp only [Bool.false_eq_true, if_false]
      rw [smLoop_spec b own opp hInv rest owm nwm hrest]
      simp only [List.filter_cons, hd, Bool.false_and, if_false,
        Bool.false_eq_true]
    | true =>
      simp only [if_true]
      rw [dw_ok_inv b col own hInv hcol]
      dsimp only
      cases hw1 : b.winsB col own with
      | true =>
        simp only [if_true]
        simp only [List.filter_cons, hd, hw1, Bool.and_true, Bool.true_and,
          if_true]
      | false =>
        simp only [Bool.false_eq_true, if_false]
        rw [dw_ok_inv b col opp hInv hcol]
        dsimp only
        cases hw2 : b.winsB col opp with
        | true =>
          simp only [if_true]
          rw [smLoop_spec b own opp hInv rest (owm ++ [col]) nwm hrest]
          simp only [List.filter_cons, hd, hw1, hw2, Bool.true_and,
            Bool.and_true, Bool.not_true, Bool.false_and, Bool.and_false,
            Bool.not_false, if_true, if_false, Bool.false_eq_true,
            List.append_assoc, List.singleton_append]
        | false =>
          simp only [Bool.false_eq_true, if_false]
          rw [smLoop_spec b own opp hInv rest owm (nwm ++ [col]) hrest]
          simp only [List.filter_cons, hd, hw1, hw2, Bool.true_and,
            Bool.and_true, Bool.not_true, Bool.false_and, Bool.and_false,
            Bool.not_false, if_true, if_false, Bool.false_eq_true,
            List.append_assoc, List.singleton_append]

theorem suggest_move_spec (b : ConnectM) (own opp : PieceColor) (hInv : b.Inv) :
    b.suggest_move own opp = b.suggestSpec own opp := by
  unfold ConnectM.suggest_move ConnectM.suggestSpec
  rw [smLoop_spec b own opp hInv (List.range b.ncols) [] []
    (fun c hc => List.mem_range.mp hc)]
  simp only [List.nil_append]

/-! ### The gravity reading of the invariant -/

/-- Number of occupied cells of column `c`. -/
def ConnectM.colCount (b : ConnectM) (c : Nat) : Nat :=
  ((List.range b.nrows).filter
    (fun (r : Nat) => (b._get (r : Int) (c : Int)).isSome)).length

/-- The spec's gravity/consistency invariant, stated as written: each
`columnHeight[c]` equals the number of occupied cells of column `c`, those
cells are exactly the rows below `columnHeight[c]` (no gaps), and
`columnHeight[c] ≤ rows`. -/
def ConnectM.GravityOK (b : ConnectM) : Prop :=
  ∀ c < b.ncols,
    b.colCount c = b.top.getD c 0 ∧
    (∀ r < b.nrows, ((b._get (r : Int) (c : Int)).isSome ↔ r < b.top.getD c 0)) ∧
    b.top.getD c 0 ≤ b.nrows

instance (b : ConnectM) : Decidable b.GravityOK := by
  unfold ConnectM.GravityOK
  infer_instance

theorem filter_range_length_lt (h n : Nat) (hle : h ≤ n) :
    ((List.range n).filter (fun r => decide (r < h))).length = h := by
  induction n with
  | zero =>
    simp only [List.range_zero, List.filter_nil, List.length_nil]
    omega
  | succ n ih =>
    rw [List.range_succ, List.filter_append]
    by_cases hn : h ≤ n
    · have : (List.filter (fun r => decide (r < h)) [n]).length = 0 := by
        simp [List.filter, decide_eq_false (by omega : ¬ n < h)]
      rw [List.length_append, this, ih hn]
      omega
    · have hh : h = n + 1 := by omega
      subst hh
      have h1 : List.filter (fun r => decide (r < n + 1)) (List.range n)
          = List.range n := by
        apply List.filter_eq_self.mpr
        intro a ha
        exact decide_eq_true (by have := List.mem_range.mp ha; omega)
      have h2 : (List.filter (fun r => decide (r < n + 1)) [n]).length = 1 := by
        simp [List.filter, decide_eq_true (by omega : n < n + 1)]
      rw [List.length_append, h1, h2, List.length_range]

theorem Inv_gravity (b : ConnectM) (hInv : b.Inv) : b.GravityOK := by
  obtain ⟨hb, hsh, ht, htop, hcell⟩ := hInv
  intro c hc
  refine ⟨?_, fun r hr => hcell c hc r hr, htop c hc⟩
  unfold ConnectM.colCount
  have hcongr : List.filter (fun (r : Nat) => (b._get (r : Int) (c : Int)).isSome)
      (List.range b.nrows)
      = List.filter (fun r => decide (r < b.top.getD c 0)) (List.range b.nrows) := by
    apply List.filter_congr
    intro r hrmem
    have hr := List.mem_range.mp hrmem
    have hiff := hcell c hc r hr
    cases hgs : (b._get (r : Int) (c : Int)).isSome
    · rw [hgs] at hiff
      have : ¬ r < b.top.getD c 0 := by
        intro hlt
        exact absurd (hiff.mpr hlt) (by simp)
      exact (decide_eq_false this).symm
    · rw [hgs] at hiff
      exact (decide_eq_true (hiff.mp rfl)).symm
  rw [hcongr, filter_range_length_lt _ _ (htop c hc)]

/-! ### Projections of `dropped`, `grid`, `done`, `init` -/

theorem dropped_nrows (b : ConnectM) (col : Nat) (color : PieceColor) :
    (b.dropped col color).nrows = b.nrows := by
  unfold ConnectM.dropped
  dsimp only
  split <;> rfl

theorem dropped_ncols (b : ConnectM) (col : Nat) (color : PieceColor) :
    (b.dropped col color).ncols = b.ncols := by
  unfold ConnectM.dropped
  dsimp only
  split <;> rfl

theorem dropped_m (b : ConnectM) (col : Nat) (color : PieceColor) :
    (b.dropped col color).m = b.m := by
  unfold ConnectM.dropped
  dsimp only
  split <;> rfl

theorem dropped_top (b : ConnectM) (col : Nat) (color : PieceColor) :
    (b.dropped col color).top = b.top.set col (b.top.getD col 0 + 1) := by
  unfold ConnectM.dropped
  dsimp only
  split <;> rfl

theorem dropped_board (b : ConnectM) (col : Nat) (color : PieceColor) :
    (b.dropped col color).board
      = (b.setCell (b.top.getD col 0) col (some color)).board := by
  unfold ConnectM.dropped
  dsimp only
  split <;> rfl

theorem dropped_get (b : ConnectM) (col : Nat) (color : PieceColor)
    (hb : b.board.length = b.nrows) (hsh : ∀ l ∈ b.board, l.length = b.ncols)
    (hrow : b.top.getD col 0 < b.nrows) (hcol : col < b.ncols)
    (r c : Nat) (hr : r < b.nrows) (hc : c < b.ncols) :
    (b.dropped col color)._get (r : Int) (c : Int)
      = if r = b.top.getD col 0 ∧ c = col then some color
        else b._get (r : Int) (c : Int) := by
  rw [get_congr (b.setCell (b.top.getD col 0) col (some color))
    (b.dropped col color) (dropped_nrows b col color) (dropped_ncols b col color)
    (dropped_board b col color)]
  exact setCell_get b _ col (some color) hb hsh hrow hcol r c hr hc

theorem grid_get (b : ConnectM) (r c : Nat) (hr : r < b.nrows)
    (hc : c < b.ncols) :
    (b.grid.getD (b.nrows - 1 - r) []).getD c none = b._get (r : Int) (c : Int) := by
  rw [get_in_range b r c hr hc]
  rfl

theorem init_get (r c m rr cc : Nat) (hr : rr < r) (hc : cc < c) :
    (ConnectM.init r c m)._get (rr : Int) (cc : Int) = none := by
  unfold ConnectM.init
  have hg := get_in_range
    (ConnectM.mk r c m (List.replicate r (List.replicate c none))
      (List.replicate c 0) none) rr cc hr hc
  dsimp only at hg
  rw [hg, listGetD_replicate _ _ _ _ (by omega), listGetD_replicate _ _ _ _ hc]

theorem init_top (r c m cc : Nat) (hc : cc < c) :
    (ConnectM.init r c m).top.getD cc 0 = 0 := by
  show (List.replicate c 0).getD cc 0 = 0
  exact listGetD_replicate _ _ _ _ hc

theorem done_init (r c m : Nat) (hr : 0 < r) (hc : 0 < c) :
    (ConnectM.init r c m).done = false := by
  unfold ConnectM.done ConnectM.init
  dsimp only
  rw [if_neg (by simp)]
  refine List.all_eq_false.mpr ⟨0, List.mem_replicate.mpr ⟨by omega, rfl⟩, ?_⟩
  simp [hr]

/-! ### Success-case analysis of `drop` and `drop_wins` -/

theorem drop_ok_cases (b : ConnectM) (col : Int) (color : PieceColor)
    (b' : ConnectM) (hInv : b.Inv) (h : b.drop col color = .ok ((), b')) :
    ∃ cn : Nat, col = (cn : Int) ∧ cn < b.ncols ∧
      b.top.getD cn 0 < b.nrows ∧ b' = b.dropped cn color := by
  have ht : b.top.length = b.ncols := hInv.2.2.1
  by_cases hbig : (b.top.length : Int) ≤ col
  · rw [drop_err_big b col color hbig] at h
    simp at h
  · by_cases hlow : col < -(b.top.length : Int)
    · rw [drop_err_low b col color hlow] at h
      simp at h
    · by_cases hneg : col < 0
      · rw [drop_neg b col color (by omega) hneg] at h
        split at h <;> simp at h
      · have hceq : col = ((col.toNat : Nat) : Int) := by omega
        have hcol : col.toNat < b.ncols := by omega
        by_cases hcd : b.top.getD col.toNat 0 < b.nrows
        · rw [hceq, drop_ok b col.toNat color ht hcol hcd] at h
          simp only [Except.ok.injEq, Prod.mk.injEq, true_and] at h
          exact ⟨col.toNat, hceq, hcol, hcd, h.symm⟩
        · rw [hceq, drop_full b col.toNat color (by omega) (by omega)] at h
          simp at h

theorem dw_ok_unchanged (b : ConnectM) (col : Int) (color : PieceColor)
    (w : Bool) (b2 : ConnectM) (hInv : b.Inv)
    (h : b.drop_wins col color = .ok (w, b2)) : b2 = b := by
  have ht : b.top.length = b.ncols := hInv.2.2.1
  by_cases hbig : (b.top.length : Int) ≤ col
  · rw [drop_wins_err_big b col color hbig] at h
    simp at h
  · by_cases hlow : col < -(b.top.length : Int)
    · rw [drop_wins_err_low b col color hlow] at h
      simp at h
    · by_cases hneg : col < 0
      · rw [drop_wins_neg b col color (by omega) hneg] at h
        split at h
        · simp at h
        · simp only [Except.ok.injEq, Prod.mk.injEq] at h
          exact h.2.symm
      · have hceq : col = ((col.toNat : Nat) : Int) := by omega
        have hcol : col.toNat < b.ncols := by omega
        rw [hceq, dw_ok_inv b col.toNat color hInv hcol] at h
        simp only [Except.ok.injEq, Prod.mk.injEq] at h
        exact h.2.symm

theorem dw_error_unchanged (b : ConnectM) (col : Int) (color : PieceColor)
    (e : PyError) (b2 : ConnectM) (hInv : b.Inv)
    (h : b.drop_wins col color = .error (e, b2)) : b2 = b := by
  have ht : b.top.length = b.ncols := hInv.2.2.1
  by_cases hbig : (b.top.length : Int) ≤ col
  · rw [drop_wins_err_big b col color hbig] at h
    simp only [Except.error.injEq, Prod.mk.injEq] at h
    exact h.2.symm
  · by_cases hlow : col < -(b.top.length : Int)
    · rw [drop_wins_err_low b col color hlow] at h
      simp only [Except.error.injEq, Prod.mk.injEq] at h
      exact h.2.symm
    · by_cases hneg : col < 0
      · rw [drop_wins_neg b col color (by omega) hneg] at h
        split at h
        · simp only [Except.error.injEq, Prod.mk.injEq] at h
          exact h.2.symm
        · simp at h
      · have hceq : col = ((col.toNat : Nat) : Int) := by omega
        have hcol : col.toNat < b.ncols := by omega
        rw [hceq, dw_ok_inv b col.toNat color hInv hcol] at h
        simp at h

/-! ### Concrete boards used by witnesses and counterexamples -/

/-- A fresh 4×4 board after one RED drop in column 0. -/
def boardOnePiece : ConnectM :=
  ConnectM.mk 4 4 4
    [[none, none, none, none], [none, none, none, none],
     [none, none, none, none], [some PieceColor.RED, none, none, none]]
    [1, 0, 0, 0] none

/-- `boardOnePiece` after one further RED drop in column 1. -/
def boardTwoPieces : ConnectM :=
  ConnectM.mk 4 4 4
    [[none, none, none, none], [none, none, none, none],
     [none, none, none, none],
     [some PieceColor.RED, some PieceColor.RED, none, none]]
    [1, 1, 0, 0] none

/-- The seven alternating drops Y0 R1 Y0 R1 Y0 R1 Y0 on a fresh 4×4 board:
YELLOW has just completed column 0. -/
def c2moves : List (Int × PieceColor) :=
  [(0, PieceColor.YELLOW), (1, PieceColor.RED), (0, PieceColor.YELLOW),
   (1, PieceColor.RED), (0, PieceColor.YELLOW), (1, PieceColor.RED),
   (0, PieceColor.YELLOW)]

/-- The board reached by `c2moves`: winner already YELLOW, column 1 holds
three REDs. -/
def bC2pre : ConnectM :=
  ConnectM.mk 4 4 4
    [[some PieceColor.YELLOW, none, none, none],
     [some PieceColor.YELLOW, some PieceColor.RED, none, none],
     [some PieceColor.YELLOW, some PieceColor.RED, none, none],
     [some PieceColor.YELLOW, some PieceColor.RED, none, none]]
    [4, 3, 0, 0] (some PieceColor.YELLOW)

/-- `bC2pre` after RED drops in column 1 and completes its own run. -/
def bC2post : ConnectM :=
  ConnectM.mk 4 4 4
    [[some PieceColor.YELLOW, some PieceColor.RED, none, none],
     [some PieceColor.YELLOW, some PieceColor.RED, none, none],
     [some PieceColor.YELLOW, some PieceColor.RED, none, none],
     [some PieceColor.YELLOW, some PieceColor.RED, none, none]]
    [4, 4, 0, 0] (some PieceColor.RED)

/-- A 6×7 board where RED threatens to win in columns 4 and 6 and YELLOW
has no winning column. -/
def bC6 : ConnectM :=
  ConnectM.mk 6 7 4
    [[none, none, none, none, none, none, none],
     [none, none, none, none, none, none, none],
     [none, none, none, none, none, none, none],
     [none, none, none, none, some PieceColor.RED, none, some PieceColor.RED],
     [some PieceColor.YELLOW, none, none, none, some PieceColor.RED, none,
      some PieceColor.RED],
     [some PieceColor.YELLOW, some PieceColor.YELLOW, none, none,
      some PieceColor.RED, none, some PieceColor.RED]]
    [2, 1, 0, 0, 3, 0, 3] none

/-- The fifteen scripted drops of the end-to-end scenario. -/
def sampleMoves : List (Int × PieceColor) :=
  [(0, PieceColor.YELLOW), (1, PieceColor.RED), (1, PieceColor.YELLOW),
   (2, PieceColor.RED), (2, PieceColor.RED), (2, PieceColor.RED),
   (3, PieceColor.YELLOW), (3, PieceColor.YELLOW), (3, PieceColor.YELLOW),
   (3, PieceColor.RED), (4, PieceColor.YELLOW), (4, PieceColor.RED),
   (4, PieceColor.RED), (4, PieceColor.YELLOW), (4, PieceColor.YELLOW)]

/-- The board reached by the fifteen scripted drops on a fresh 5×5
(m = 4) board: no winner yet, column 2 holds three REDs. -/
def bSample : ConnectM :=
  ConnectM.mk 5 5 4
    [[none, none, none, none, some PieceColor.YELLOW],
     [none, none, none, some PieceColor.RED, some PieceColor.YELLOW],
     [none, none, some PieceColor.RED, some PieceColor.YELLOW,
      some PieceColor.RED],
     [none, some PieceColor.YELLOW, some PieceColor.RED,
      some PieceColor.YELLOW, some PieceColor.RED],
     [some PieceColor.YELLOW, some PieceColor.RED, some PieceColor.RED,
      some PieceColor.YELLOW, some PieceColor.YELLOW]]
    [1, 2, 3, 4, 5] none

/-- `bSample` after the sixteenth drop, RED into column 2: the four REDs of
column 2 set the winner. -/
def bSampleWin : ConnectM :=
  ConnectM.mk 5 5 4
    [[none, none, none, none, some PieceColor.YELLOW],
     [none, none, some PieceColor.RED, some PieceColor.RED,
      some PieceColor.YELLOW],
     [none, none, some PieceColor.RED, some PieceColor.YELLOW,
      some PieceColor.RED],
     [none, some PieceColor.YELLOW, some PieceColor.RED,
      some PieceColor.YELLOW, some PieceColor.RED],
     [some PieceColor.YELLOW, some PieceColor.RED, some PieceColor.RED,
      some PieceColor.YELLOW, some PieceColor.YELLOW]]
    [1, 2, 4, 4, 5] (some PieceColor.RED)

theorem get_none_of_ge_top (b : ConnectM) (hInv : b.Inv) (r c : Nat)
    (hr : r < b.nrows) (hc : c < b.ncols) (hge : b.top.getD c 0 ≤ r) :
    b._get (r : Int) (c : Int) = none := by
  have hiff := hInv.2.2.2.2 c hc r hr
  rcases ho : b._get (r : Int) (c : Int) with _ | x
  · rfl
  · rw [ho] at hiff
    have := hiff.mp (by simp)
    omega

/-! ### The claims -/

/-- C1: for every board whose cell (row, col) holds a placed piece of some
color, the engine's local win scan `_winner_at` returns true iff the piece
completes a run of at least `m` same-colored contiguous cells through that
cell, computed exactly as the spec describes it: count outward in each of
the 8 unit directions, capped at `m - 1` steps, off-board cells never
matching and never an error, and win iff some opposite-direction pair
satisfies `count(dir) + 1 + count(opposite) ≥ m`. -/
theorem C1_win_scan_matches_spec (b : ConnectM) (row col : Int)
    (color : PieceColor) (h : b._get row col = some color) :
    b._winner_at row col = b.specWinAt row col color :=
  winner_at_iff_specWin b row col color h

/-- C1 witness: the scan agrees with the spec's pair formula on a concrete
board with a RED piece at (0, 0). -/
theorem C1_witness :
    boardOnePiece._winner_at 0 0 = boardOnePiece.specWinAt 0 0 PieceColor.RED :=
  C1_win_scan_matches_spec boardOnePiece 0 0 PieceColor.RED (by decide)

/-- C2 counterexample: a reachable 4×4 board (seven alternating drops) has
winner YELLOW, and one further RED drop — a winning one — overwrites the
winner to RED, so a subsequent drop can change an already-set winner. -/
theorem C2_counterexample :
    (ConnectM.init 4 4 4).dropSeq c2moves = .ok ((), bC2pre) ∧
    bC2pre.winner = some PieceColor.YELLOW ∧
    bC2pre.drop 1 PieceColor.RED = .ok ((), bC2post) ∧
    bC2post.winner = some PieceColor.RED := by decide

/-- C2 (amended): a later successful drop never clears an already-set
winner: if the drop is non-winning the winner is unchanged, and if it is
winning the winner becomes the dropped color (possibly overwriting the
earlier winner). -/
theorem C2_winner_never_cleared (b : ConnectM) (col : Nat)
    (color w : PieceColor) (b' : ConnectM) (hInv : b.Inv)
    (hw : b.winner = some w)
    (hdrop : b.drop (col : Int) color = .ok ((), b')) :
    b'.winner = (if b.winsB col color = true then some color else some w) := by
  obtain ⟨cn, hceq, hcol, hcd, hb'⟩ := drop_ok_cases b (col : Int) color b' hInv hdrop
  have hcn : cn = col := by exact_mod_cast hceq.symm
  subst hcn
  subst hb'
  rw [dropped_winner_winsB b cn color hInv hcol hcd, hw]

/-- C2 witness: on the concrete board with winner YELLOW, the RED drop in
column 1 is winning and the amended rule gives winner RED. -/
theorem C2_witness :
    bC2post.winner
      = (if bC2pre.winsB 1 PieceColor.RED = true then some PieceColor.RED
         else some PieceColor.YELLOW) :=
  C2_winner_never_cleared bC2pre 1 PieceColor.RED PieceColor.YELLOW bC2post
    (by decide) (by decide) (by decide)

/-- C3 counterexample: on a fresh 4×4 board, `can_drop (-1)` returns true
(not false) via Python negative indexing, and `drop_wins (-1)` raises an
AssertionError instead of returning false. -/
theorem C3_counterexample :
    (ConnectM.init 4 4 4).can_drop (-1) = .ok (true, ConnectM.init 4 4 4) ∧
    (ConnectM.init 4 4 4).drop_wins (-1) PieceColor.RED
      = .error (.assertionError, ConnectM.init 4 4 4) := by decide

/-- C3 (amended): out-of-range behavior of `can_drop`/`drop_wins` — for
`col ≥ cols` or `col < -cols` both raise IndexError; for `-cols ≤ col < 0`
Python negative indexing applies, so `can_drop` reports on column
`cols + col` (and can return true), while `drop_wins` returns false when
that column is full but raises AssertionError when it is droppable; for
`0 ≤ col < cols`, `can_drop` is true iff `columnHeight[col] < rows`. The
board is never mutated: every result carries the board unchanged. -/
theorem C3_out_of_range_policy (b : ConnectM) (col : Int)
    (color : PieceColor) (hInv : b.Inv) :
    ((b.ncols : Int) ≤ col ∨ col < -(b.ncols : Int) →
      b.can_drop col = .error (.indexError, b) ∧
      b.drop_wins col color = .error (.indexError, b)) ∧
    (-(b.ncols : Int) ≤ col → col < 0 →
      b.can_drop col
        = .ok (decide (b.top.getD (col + b.ncols).toNat 0 < b.nrows), b) ∧
      (b.top.getD (col + b.ncols).toNat 0 < b.nrows →
        b.drop_wins col color = .error (.assertionError, b)) ∧
      (b.nrows ≤ b.top.getD (col + b.ncols).toNat 0 →
        b.drop_wins col color = .ok (false, b))) ∧
    (0 ≤ col → col < (b.ncols : Int) →
      b.can_drop col = .ok (decide (b.top.getD col.toNat 0 < b.nrows), b)) := by
  have ht : b.top.length = b.ncols := hInv.2.2.1
  have htc : ((b.top.length : Nat) : Int) = (b.ncols : Int) := by omega
  refine ⟨?_, ?_, ?_⟩
  · intro h
    rcases h with h | h
    · exact ⟨can_drop_err_big b col (by omega),
        drop_wins_err_big b col color (by omega)⟩
    · exact ⟨can_drop_err_low b col (by omega),
        drop_wins_err_low b col color (by omega)⟩
  · intro h1 h2
    have hlen : (col + (b.top.length : Int)) = (col + (b.ncols : Int)) := by
      omega
    refine ⟨?_, ?_, ?_⟩
    · rw [can_drop_neg b col (by omega) h2, hlen]
    · intro hcd
      rw [drop_wins_neg b col color (by omega) h2, hlen,
        if_pos (by exact hcd)]
    · intro hfull
      rw [drop_wins_neg b col color (by omega) h2, hlen,
        if_neg (by omega)]
  · intro h0 hlt
    have hceq : col = ((col.toNat : Nat) : Int) := by omega
    rw [hceq, can_drop_nat b col.toNat (by omega)]
    simp only [Int.toNat_natCast]

/-- C3 witness: on a fresh 4×4 board, the negative-index branch of the
amended policy at column -1 yields `can_drop = ok true` and an
AssertionError from `drop_wins`. -/
theorem C3_witness :
    (ConnectM.init 4 4 4).can_drop (-1) = .ok (true, ConnectM.init 4 4 4) ∧
    (ConnectM.init 4 4 4).drop_wins (-1) PieceColor.YELLOW
      = .error (.assertionError, ConnectM.init 4 4 4) := by
  have h := C3_out_of_range_policy (ConnectM.init 4 4 4) (-1) PieceColor.YELLOW
    (by decide)
  exact ⟨((h.2.1 (by decide) (by decide)).1).trans (by decide),
    (h.2.1 (by decide) (by decide)).2.1 (by decide)⟩

/-- C4: `drop_wins` (the spec's `wouldWin`) is side-effect-free: whenever
`can_drop` reports false it returns false with the board untouched, every
non-raising call returns the board unchanged (so `grid`, `winner` / the
spec's `getWinner`, `done` / `isDone`, and the column heights are all
identical before and after, the winner in particular is never set, and any
number of consecutive calls returns the same result), and even a raising
call leaves the board unchanged. -/
theorem C4_would_win_frame (b : ConnectM) (col : Int) (color : PieceColor)
    (hInv : b.Inv) :
    (∀ b1, b.can_drop col = .ok (false, b1) →
      b.drop_wins col color = .ok (false, b1)) ∧
    (∀ w b2, b.drop_wins col color = .ok (w, b2) →
      b2 = b ∧ b2.grid = b.grid ∧ b2.winner = b.winner ∧ b2.done = b.done ∧
      b2.top = b.top) ∧
    (∀ e b2, b.drop_wins col color = .error (e, b2) → b2 = b) := by
  refine ⟨?_, ?_, ?_⟩
  · intro b1 hcd
    unfold ConnectM.drop_wins
    rw [hcd]
    simp
  · intro w b2 h
    have hb2 := dw_ok_unchanged b col color w b2 hInv h
    subst hb2
    exact ⟨rfl, rfl, rfl, rfl, rfl⟩
  · intro e b2 h
    exact dw_error_unchanged b col color e b2 hInv h

/-- C4 witness: a non-winning `drop_wins` probe of column 0 on a concrete
one-piece board leaves every observable unchanged. -/
theorem C4_witness :
    boardOnePiece = boardOnePiece ∧
    ConnectM.grid boardOnePiece = ConnectM.grid boardOnePiece ∧
    boardOnePiece.winner = boardOnePiece.winner ∧
    ConnectM.done boardOnePiece = ConnectM.done boardOnePiece ∧
    boardOnePiece.top = boardOnePiece.top :=
  (C4_would_win_frame boardOnePiece 0 PieceColor.YELLOW (by decide)).2.1
    false boardOnePiece (by decide)

/-- C5 counterexample: on a fresh 4×4 board, `can_drop (-1)` is true, yet
`drop (-1)` fails — and with an AssertionError, not the IllegalMove
(ValueError) the claim predicts — so drop does not fail exactly when
`can_drop` is false. -/
theorem C5_counterexample :
    (ConnectM.init 4 4 4).can_drop (-1) = .ok (true, ConnectM.init 4 4 4) ∧
    (ConnectM.init 4 4 4).drop (-1) PieceColor.RED
      = .error (.assertionError, ConnectM.init 4 4 4) := by decide

/-- C5 (amended): for `0 ≤ col < cols`, `drop` fails with ValueError (the
IllegalMove) exactly when the column is full, and on success places the
color at row `columnHeight[col]` of the column and increments
`columnHeight[col]`; for `col ≥ cols` or `col < -cols` it raises
IndexError; for `-cols ≤ col < 0` it always raises (AssertionError when
the wrapped column `cols + col` is droppable, ValueError when it is full);
in every failure case the board is left completely unchanged (each error
carries the board exactly as it was). -/
theorem C5_drop_contract (b : ConnectM) (col : Int) (color : PieceColor)
    (hInv : b.Inv) :
    (0 ≤ col → col < (b.ncols : Int) →
      (b.nrows ≤ b.top.getD col.toNat 0 →
        b.drop col color = .error (.valueError, b)) ∧
      (b.top.getD col.toNat 0 < b.nrows →
        b.drop col color = .ok ((), b.dropped col.toNat color) ∧
        (b.dropped col.toNat color)._get
          ((b.top.getD col.toNat 0 : Nat) : Int) ((col.toNat : Nat) : Int)
          = some color ∧
        (b.dropped col.toNat color).top.getD col.toNat 0
          = b.top.getD col.toNat 0 + 1)) ∧
    ((b.ncols : Int) ≤ col ∨ col < -(b.ncols : Int) →
      b.drop col color = .error (.indexError, b)) ∧
    (-(b.ncols : Int) ≤ col → col < 0 →
      b.drop col color = .error
        (if b.top.getD (col + b.ncols).toNat 0 < b.nrows then
          PyError.assertionError else PyError.valueError, b)) := by
  obtain ⟨hb, hsh, ht, htop, hcell⟩ := hInv
  refine ⟨?_, ?_, ?_⟩
  · intro h0 hlt
    have hceq : col = ((col.toNat : Nat) : Int) := by omega
    have hcol : col.toNat < b.ncols := by omega
    constructor
    · intro hfull
      rw [hceq]
      exact drop_full b col.toNat color (by omega) hfull
    · intro hcd
      refine ⟨?_, ?_, ?_⟩
      · rw [hceq]
        exact drop_ok b col.toNat color ht hcol hcd
      · rw [dropped_get b col.toNat color hb hsh hcd hcol
          (b.top.getD col.toNat 0) col.toNat hcd hcol]
        rw [if_pos ⟨rfl, rfl⟩]
      · rw [dropped_top]
        exact listGetD_set_self _ _ _ _ (by omega)
  · intro h
    rcases h with h | h
    · exact drop_err_big b col color (by omega)
    · exact drop_err_low b col color (by omega)
  · intro h1 h2
    have hlen : (col + (b.top.length : Int)) = (col + (b.ncols : Int)) := by
      omega
    rw [drop_neg b col color (by omega) h2, hlen]
    by_cases hcd : b.top.getD (col + (b.ncols : Int)).toNat 0 < b.nrows
    · rw [if_pos hcd, if_pos hcd]
    · rw [if_neg hcd, if_neg hcd]

/-- C5 witness: on the full column 0 of a finished concrete board, `drop`
fails with ValueError; on a droppable column of a one-piece board, `drop`
succeeds and places the piece at the column height, incrementing it. -/
theorem C5_witness :
    bC2post.drop 0 PieceColor.RED = .error (.valueError, bC2post) ∧
    boardOnePiece.drop 1 PieceColor.RED
      = .ok ((), boardOnePiece.dropped 1 PieceColor.RED) ∧
    (boardOnePiece.dropped 1 PieceColor.RED).top.getD 1 0
      = boardOnePiece.top.getD 1 0 + 1 :=
  ⟨((C5_drop_contract bC2post 0 PieceColor.RED (by decide)).1
      (by decide) (by decide)).1 (by decide),
   ((C5_drop_contract boardOnePiece 1 PieceColor.RED (by decide)).1
      (by decide) (by decide)).2 (by decide) |>.1,
   ((C5_drop_contract boardOnePiece 1 PieceColor.RED (by decide)).1
      (by decide) (by decide)).2 (by decide) |>.2.2⟩

/-- C6: `SmartBot.suggest_move` (the spec's `GreedyPolicy`) follows
win > block > random with a first-match (smallest-column) tie-break: it
returns the first droppable column whose own-color drop wins; otherwise the
first droppable column whose opponent-color drop would win (a block);
otherwise a random choice among the droppable columns that neither win nor
block — exactly the behavior captured by `suggestSpec`, whose candidate
lists are ascending filters of `0 .. cols - 1`. -/
theorem C6_greedy_ordering (b : ConnectM) (own opp : PieceColor)
    (hInv : b.Inv) :
    b.suggest_move own opp = b.suggestSpec own opp :=
  suggest_move_spec b own opp hInv

/-- C6 witness: on the concrete scenario board — no winning column for
YELLOW, RED threatening in columns 4 and 6 — the bot deterministically
returns column 4, the first blocking column. -/
theorem C6_witness :
    bC6.suggest_move PieceColor.YELLOW PieceColor.RED = .ok (.col 4, bC6) ∧
    bC6.winsB 4 PieceColor.RED = true ∧
    bC6.winsB 6 PieceColor.RED = true ∧
    ((List.range 7).all (fun c => ! bC6.winsB c PieceColor.YELLOW)) = true :=
  ⟨(C6_greedy_ordering bC6 PieceColor.YELLOW PieceColor.RED (by decide)).trans
      (by decide),
   by decide, by decide, by decide⟩

/-- C7: `reset` returns any invariant-satisfying board to the state of a
freshly constructed board of the same (rows, cols, m): literally equal to
it, hence indistinguishable through `grid`, the winner accessor and `done`
(the spec's `isDone`); every cell is empty, every column height is zero,
the winner is cleared, and (for valid dimensions `rows, cols ≥ m ≥ 1`)
`done` is false. -/
theorem C7_reset_fresh (b : ConnectM) (hInv : b.Inv) (hm : 1 ≤ b.m)
    (hr : b.m ≤ b.nrows) (hc : b.m ≤ b.ncols) :
    b.reset = ConnectM.init b.nrows b.ncols b.m ∧
    b.reset.grid = (ConnectM.init b.nrows b.ncols b.m).grid ∧
    b.reset.winner = none ∧
    b.reset.done = false ∧
    (∀ r < b.nrows, ∀ c < b.ncols, b.reset._get (r : Int) (c : Int) = none) ∧
    (∀ c < b.ncols, b.reset.top.getD c 0 = 0) := by
  have h1 := reset_eq_init b hInv
  refine ⟨h1, by rw [h1], rfl, ?_, ?_, ?_⟩
  · rw [h1]
    exact done_init b.nrows b.ncols b.m (by omega) (by omega)
  · intro r hrr c hcc
    rw [h1]
    exact init_get b.nrows b.ncols b.m r c hrr hcc
  · intro c hcc
    rw [h1]
    exact init_top b.nrows b.ncols b.m c hcc

/-- C7 witness: resetting the concrete finished board yields the fresh
4×4 board, with `done` false. -/
theorem C7_witness :
    bC2post.reset = ConnectM.init 4 4 4 ∧ bC2post.reset.done = false :=
  ⟨(C7_reset_fresh bC2post (by decide) (by decide) (by decide) (by decide)).1,
   (C7_reset_fresh bC2post (by decide) (by decide) (by decide)
      (by decide)).2.2.2.1⟩

/-- C8: the gravity/consistency invariant — `columnHeight[c]` equals the
number of occupied cells of column c, the occupied cells are exactly rows
`0 .. columnHeight[c] - 1` with no gaps, and `columnHeight[c] ≤ rows` — is
established at construction and preserved by every successful `drop`, by
every non-raising `drop_wins` probe, and by `reset`. -/
theorem C8_gravity_invariant (r c m : Nat) (b b' b2 : ConnectM) (col : Int)
    (color : PieceColor) (w : Bool) :
    ((ConnectM.init r c m).Inv ∧ (ConnectM.init r c m).GravityOK) ∧
    (b.Inv → b.drop col color = .ok ((), b') → b'.Inv ∧ b'.GravityOK) ∧
    (b.Inv → b.drop_wins col color = .ok (w, b2) → b2.Inv ∧ b2.GravityOK) ∧
    (b.Inv → b.reset.Inv ∧ b.reset.GravityOK) := by
  refine ⟨⟨Inv_init r c m, Inv_gravity _ (Inv_init r c m)⟩, ?_, ?_, ?_⟩
  · intro hInv h
    obtain ⟨cn, hceq, hcol, hcd, hb'⟩ := drop_ok_cases b col color b' hInv h
    subst hb'
    have hd := Inv_dropped b cn color hInv hcol hcd
    exact ⟨hd, Inv_gravity _ hd⟩
  · intro hInv h
    have hb2 := dw_ok_unchanged b col color w b2 hInv h
    subst hb2
    exact ⟨hInv, Inv_gravity _ hInv⟩
  · intro hInv
    have hres := Inv_reset b hInv
    exact ⟨hres, Inv_gravity _ hres⟩

/-- C8 witness: the invariant holds for the fresh 4×4 board, is preserved
by a concrete successful drop and a concrete `drop_wins` probe, and by
resetting a concrete board. -/
theorem C8_witness :
    ((ConnectM.init 4 4 4).Inv ∧ (ConnectM.init 4 4 4).GravityOK) ∧
    (boardTwoPieces.Inv ∧ boardTwoPieces.GravityOK) ∧
    (boardOnePiece.Inv ∧ boardOnePiece.GravityOK) ∧
    (bC2post.reset.Inv ∧ bC2post.reset.GravityOK) :=
  ⟨(C8_gravity_invariant 4 4 4 boardOnePiece boardTwoPieces boardOnePiece
      1 PieceColor.RED false).1,
   (C8_gravity_invariant 4 4 4 boardOnePiece boardTwoPieces boardOnePiece
      1 PieceColor.RED false).2.1 (by decide) (by decide),
   (C8_gravity_invariant 4 4 4 boardOnePiece boardTwoPieces boardOnePiece
      1 PieceColor.RED false).2.2.1 (by decide) (by decide),
   (C8_gravity_invariant 4 4 4 bC2post boardTwoPieces boardOnePiece
      1 PieceColor.RED false).2.2.2 (by decide)⟩

/-- C9 counterexample: the sixteen drops run as claimed and the sixteenth
sets the winner to RED, but the claim's "completes a diagonal" is false: at
the placed cell (3, 2) both diagonal opposite-direction pairs of the
engine's own scan total 1 (< 4), and no occupied cell of the final board
lies on a diagonal run of four at all (the counts are capped at m - 1 = 3,
so a pair sum reaching 4 is equivalent to a run of four through the cell).
The run the drop completes is the vertical one. -/
theorem C9_counterexample :
    (ConnectM.init 5 5 4).dropSeq sampleMoves = .ok ((), bSample) ∧
    bSample.winner = none ∧
    bSample.drop 2 PieceColor.RED = .ok ((), bSampleWin) ∧
    bSampleWin.winner = some PieceColor.RED ∧
    bSampleWin.adjDir 3 2 1 (-1) + 1 + bSampleWin.adjDir 3 2 (-1) 1 < 4 ∧
    bSampleWin.adjDir 3 2 (-1) (-1) + 1 + bSampleWin.adjDir 3 2 1 1 < 4 ∧
    ((List.range 5).all (fun (r : Nat) => (List.range 5).all (fun (c : Nat) =>
      (bSampleWin._get (r : Int) (c : Int) == none) ||
      (decide (bSampleWin.adjDir (r : Int) (c : Int) 1 (-1) + 1
          + bSampleWin.adjDir (r : Int) (c : Int) (-1) 1 < 4) &&
       decide (bSampleWin.adjDir (r : Int) (c : Int) (-1) (-1) + 1
          + bSampleWin.adjDir (r : Int) (c : Int) 1 1 < 4))))) = true := by
  decide

/-- C9 (amended): on a fresh 5×5 board with m = 4, the fifteen scripted
drops (YELLOW, RED, ... into columns 0,1,1,2,2,2,3,3,3,3,4,4,4,4,4) all
succeed and leave no winner, and one further RED drop into column 2
succeeds and sets the winner to RED by completing a vertical run — the
four REDs of column 2 (logical rows 0 through 3) — not a diagonal. -/
theorem C9_end_to_end_vertical :
    (ConnectM.init 5 5 4).dropSeq sampleMoves = .ok ((), bSample) ∧
    bSample.winner = none ∧
    bSample.drop 2 PieceColor.RED = .ok ((), bSampleWin) ∧
    bSampleWin.winner = some PieceColor.RED ∧
    bSampleWin._get 3 2 = some PieceColor.RED ∧
    4 ≤ bSampleWin.adjDir 3 2 1 0 + 1 + bSampleWin.adjDir 3 2 (-1) 0 ∧
    bSampleWin._get 0 2 = some PieceColor.RED ∧
    bSampleWin._get 1 2 = some PieceColor.RED ∧
    bSampleWin._get 2 2 = some PieceColor.RED := by
  decide

/-- C10: the `grid` snapshot is oriented top row first, the reverse of the
engine's logical bottom-up row numbering: the piece at logical row r and
column c appears at `grid[rows - 1 - r][c]`; in particular a piece dropped
into an empty column c lands at `grid[rows - 1][c]`, while (when the board
has more than one row) `grid[0][c]` stays empty. -/
theorem C10_grid_orientation (b : ConnectM) (r c : Nat) (hInv : b.Inv)
    (hr : r < b.nrows) (hc : c < b.ncols) :
    ((b.grid.getD (b.nrows - 1 - r) []).getD c none
      = b._get (r : Int) (c : Int)) ∧
    (∀ (color : PieceColor) (b' : ConnectM), b.top.getD c 0 = 0 →
      b.drop (c : Int) color = .ok ((), b') →
      ((b'.grid.getD (b.nrows - 1) []).getD c none = some color ∧
       (1 < b.nrows → (b'.grid.getD 0 []).getD c none = none))) := by
  constructor
  · exact grid_get b r c hr hc
  · intro color b' htop0 hdrop
    obtain ⟨cn, hceq, hcol, hcd, hb'⟩ := drop_ok_cases b (c : Int) color b' hInv hdrop
    have hcn : cn = c := by exact_mod_cast hceq.symm
    subst hcn
    subst hb'
    have hb := hInv.1
    have hsh := hInv.2.1
    constructor
    · have hg := grid_get (b.dropped cn color) 0 cn
        (by rw [dropped_nrows]; omega) (by rw [dropped_ncols]; exact hcol)
      rw [dropped_nrows, Nat.sub_zero] at hg
      rw [hg, dropped_get b cn color hb hsh hcd hcol 0 cn (by omega) hcol,
        if_pos ⟨by omega, rfl⟩]
    · intro h1
      have hg := grid_get (b.dropped cn color) (b.nrows - 1) cn
        (by rw [dropped_nrows]; omega) (by rw [dropped_ncols]; exact hcol)
      rw [dropped_nrows] at hg
      rw [show b.nrows - 1 - (b.nrows - 1) = 0 from by omega] at hg
      rw [hg, dropped_get b cn color hb hsh hcd hcol (b.nrows - 1) cn
        (by omega) hcol, if_neg (fun hcontra => by omega)]
      exact get_none_of_ge_top b hInv (b.nrows - 1) cn (by omega) hcol
        (by omega)

/-- C10 witness: on the concrete one-piece board, logical cell (0, 0)
appears at `grid[3][0]`, and the RED piece dropped into the empty column 1
is found at `grid[3][1]`, with `grid[0][1]` still empty. -/
theorem C10_witness :
    ((boardOnePiece.grid.getD 3 []).getD 0 none = boardOnePiece._get 0 0) ∧
    ((boardTwoPieces.grid.getD 3 []).getD 1 none = some PieceColor.RED ∧
     (boardTwoPieces.grid.getD 0 []).getD 1 none = none) :=
  ⟨(C10_grid_orientation boardOnePiece 0 0 (by decide) (by decide)
      (by decide)).1,
   ((C10_grid_orientation boardOnePiece 0 1 (by decide) (by decide)
      (by decide)).2 PieceColor.RED boardTwoPieces (by decide) (by decide)).1,
   ((C10_grid_orientation boardOnePiece 0 1 (by decide) (by decide)
      (by decide)).2 PieceColor.RED boardTwoPieces (by decide)
      (by decide)).2 (by decide)⟩
